import Mathlib

/-
Verification of the NumerologyCalculator repository.

Python strings are embedded as `List Char`; Python `str.upper()` / `str.lower()`
are modelled by `Char.toUpper` / `Char.toLower` applied characterwise (faithful
on the ASCII range the letter tables live in), `str.strip()` by `pyStrip`,
`str.isspace()` by `pyIsSpace`, and Python dictionaries by association lists
with `List.lookup`.  Machine integers are `Int` (Python ints are unbounded).
Fallible functions return `Except String`.
-/

/-- Model of Python `str.isspace` on a single character (the ASCII whitespace
characters Python recognises: space, tab, newline, carriage return, vertical
tab, form feed). -/
def pyIsSpace (c : Char) : Bool :=
  c == ' ' || c == '\t' || c == '\n' || c == '\r' || c == '\x0b' || c == '\x0c'

/-- Model of Python `str.strip()`: remove leading and trailing whitespace. -/
def pyStrip (s : List Char) : List Char :=
  ((s.dropWhile pyIsSpace).reverse.dropWhile pyIsSpace).reverse

/-- The `letter_values` dictionary literal inside
`numerology.calculate_numerology_value` (src/numerology.py lines 30-40),
in source order. -/
def letter_values_list : List (Char × Int) :=
  [('A', 1), ('J', 1), ('S', 3),
   ('B', 2), ('K', 2), ('T', 4),
   ('C', 3), ('L', 3), ('U', 6),
   ('D', 4), ('M', 4), ('V', 6),
   ('E', 5), ('N', 5), ('W', 6),
   ('F', 8), ('O', 7), ('X', 5),
   ('G', 3), ('P', 8), ('Y', 1),
   ('H', 5), ('Q', 1), ('Z', 7),
   ('I', 1), ('R', 2)]

/-- One step of the scoring loop in `calculate_numerology_value`:
`if char in letter_values: total += letter_values[char]; valid_chars += 1`. -/
def coreStep (lv : List (Char × Int)) (acc : Int × Nat) (c : Char) : Int × Nat :=
  match lv.lookup c with
  | some v => (acc.1 + v, acc.2 + 1)
  | none => acc

/-- The `(total, valid_chars)` pair computed by the `for char in name.upper()`
loop of `calculate_numerology_value`, as a fold over the already-uppercased
character list. -/
def nameTotals (chars : List Char) : Int × Nat :=
  chars.foldl (coreStep letter_values_list) (0, 0)

/-- The inner digit-summing loop of `reduce_to_final_number`
(`while temp > 0: digit_sum += temp % 10; temp //= 10`). -/
def digitSum (n : Nat) : Nat :=
  if h : n = 0 then 0
  else n % 10 + digitSum (n / 10)
termination_by n
decreasing_by exact Nat.div_lt_self (Nat.pos_of_ne_zero h) (by omega)

theorem digitSum_zero : digitSum 0 = 0 := by
  unfold digitSum
  rfl

theorem digitSum_of_ne_zero (n : Nat) (h : n ≠ 0) :
    digitSum n = n % 10 + digitSum (n / 10) := by
  conv_lhs => unfold digitSum
  simp [h]

theorem digitSum_le (n : Nat) : digitSum n ≤ n := by
  induction n using Nat.strong_induction_on with
  | _ n ih =>
    by_cases h : n = 0
    · subst h; simp [digitSum_zero]
    · rw [digitSum_of_ne_zero n h]
      have hd : n / 10 < n := Nat.div_lt_self (Nat.pos_of_ne_zero h) (by omega)
      have := ih (n / 10) hd
      omega

theorem digitSum_lt (n : Nat) (h : 10 ≤ n) : digitSum n < n := by
  rw [digitSum_of_ne_zero n (by omega)]
  have := digitSum_le (n / 10)
  omega

theorem digitSum_pos (n : Nat) (h : 0 < n) : 0 < digitSum n := by
  induction n using Nat.strong_induction_on with
  | _ n ih =>
    rw [digitSum_of_ne_zero n (by omega)]
    by_cases hm : n % 10 = 0
    · have hdpos : 0 < n / 10 := by omega
      have hlt : n / 10 < n := Nat.div_lt_self h (by omega)
      have := ih (n / 10) hlt hdpos
      omega
    · omega

/-- `numerology.reduce_to_final_number` (src/numerology.py lines 58-82):
the outer `while number > 9` loop with the master-number short circuit,
embedded as well-founded recursion on the decreasing digit sum. -/
def reduce_to_final_number (number : Int) : Int :=
  if _h9 : 9 < number then
    if number = 11 ∨ number = 22 ∨ number = 33 then number
    else reduce_to_final_number (digitSum number.toNat)
  else number
termination_by number.toNat
decreasing_by
  have h1 : digitSum number.toNat < number.toNat := digitSum_lt _ (by omega)
  omega

theorem reduce_of_le_nine (n : Int) (h : n ≤ 9) : reduce_to_final_number n = n := by
  unfold reduce_to_final_number
  rw [dif_neg (by omega)]

theorem reduce_of_master (n : Int) (h9 : 9 < n) (hm : n = 11 ∨ n = 22 ∨ n = 33) :
    reduce_to_final_number n = n := by
  unfold reduce_to_final_number
  rw [dif_pos h9, if_pos hm]

theorem reduce_step (n : Int) (h9 : 9 < n) (hm : ¬(n = 11 ∨ n = 22 ∨ n = 33)) :
    reduce_to_final_number n = reduce_to_final_number (digitSum n.toNat) := by
  conv_lhs => unfold reduce_to_final_number
  rw [dif_pos h9, if_neg hm]

/-- `numerology.calculate_numerology_value` (src/numerology.py lines 8-55):
empty-name check, scoring loop, no-valid-letter check, reduction. -/
def calculate_numerology_value (name : List Char) : Except String Int :=
  if pyStrip name = [] then Except.error "Name cannot be empty"
  else if (nameTotals (name.map Char.toUpper)).2 = 0 then
    Except.error "Name must contain at least one valid letter"
  else Except.ok (reduce_to_final_number (nameTotals (name.map Char.toUpper)).1)

/-- The `meanings` dictionary of `numerology.get_numerology_meaning`
(src/numerology.py lines 85-110). -/
def meanings_list : List (Int × String) :=
  [(1, "Leadership, independence, pioneering spirit"),
   (2, "Cooperation, balance, diplomacy"),
   (3, "Creativity, communication, optimism"),
   (4, "Stability, hard work, practicality"),
   (5, "Freedom, adventure, versatility"),
   (6, "Nurturing, responsibility, compassion"),
   (7, "Spirituality, introspection, analysis"),
   (8, "Material success, ambition, authority"),
   (9, "Humanitarian, generous, completion"),
   (11, "Intuition, inspiration, enlightenment (Master Number)"),
   (22, "Master builder, practical idealism (Master Number)"),
   (33, "Master teacher, compassion, healing (Master Number)")]

/-- `numerology.get_numerology_meaning`: `meanings.get(number, "Unknown number")`. -/
def get_numerology_meaning (number : Int) : String :=
  (meanings_list.lookup number).getD "Unknown number"

theorem reduce_step_eval (n : Int) (m : Nat) (h9 : 9 < n)
    (hm : ¬(n = 11 ∨ n = 22 ∨ n = 33)) (hd : digitSum n.toNat = m) :
    reduce_to_final_number n = reduce_to_final_number m := by
  rw [reduce_step n h9 hm, hd]

theorem reduce_eval_18 : reduce_to_final_number 18 = 9 := by
  rw [reduce_step_eval 18 9 (by norm_num) (by norm_num)
    (by rw [show Int.toNat 18 = 18 from rfl]
        norm_num [digitSum_of_ne_zero, digitSum_zero])]
  exact reduce_of_le_nine 9 (by norm_num)

theorem reduce_eval_15 : reduce_to_final_number 15 = 6 := by
  rw [reduce_step_eval 15 6 (by norm_num) (by norm_num)
    (by rw [show Int.toNat 15 = 15 from rfl]
        norm_num [digitSum_of_ne_zero, digitSum_zero])]
  exact reduce_of_le_nine 6 (by norm_num)

theorem reduce_eval_29 : reduce_to_final_number 29 = 11 := by
  rw [reduce_step_eval 29 11 (by norm_num) (by norm_num)
    (by rw [show Int.toNat 29 = 29 from rfl]
        norm_num [digitSum_of_ne_zero, digitSum_zero])]
  exact reduce_of_master 11 (by norm_num) (by norm_num)

theorem lookup_mem {l : List (Char × Int)} {c : Char} {v : Int}
    (h : l.lookup c = some v) : (c, v) ∈ l := by
  induction l with
  | nil => simp [List.lookup] at h
  | cons p rest ih =>
    rw [show p = (p.1, p.2) from rfl, List.lookup_cons] at h
    by_cases hc : c == p.1
    · simp only [hc] at h
      cases h
      have : c = p.1 := by exact eq_of_beq hc
      subst this
      exact List.mem_cons_self _ _
    · simp only [Bool.not_eq_true] at hc
      simp only [hc] at h
      exact List.mem_cons_of_mem _ (ih h)

/-- Every value in the scoring table is at least 1. -/
theorem letter_values_ge_one {c : Char} {v : Int}
    (h : letter_values_list.lookup c = some v) : 1 ≤ v := by
  have hm := lookup_mem h
  have hall : ∀ p ∈ letter_values_list, 1 ≤ p.2 := by decide
  exact hall (c, v) hm

theorem coreStep_foldl (lv : List (Char × Int)) (chars : List Char) :
    ∀ acc : Int × Nat,
      chars.foldl (coreStep lv) acc
        = (acc.1 + (chars.filterMap fun c => lv.lookup c).sum,
           acc.2 + (chars.filterMap fun c => lv.lookup c).length) := by
  induction chars with
  | nil => intro acc; simp
  | cons c cs ih =>
    intro acc
    rw [List.foldl_cons, List.filterMap_cons, ih]
    cases h : lv.lookup c with
    | none => simp [coreStep, h]
    | some v =>
      simp only [coreStep, h, List.sum_cons, List.length_cons, Prod.mk.injEq]
      constructor
      · ring
      · omega

/-- The scoring loop computes the sum and count over the mapped characters. -/
theorem nameTotals_eq (chars : List Char) :
    nameTotals chars
      = ((chars.filterMap fun c => letter_values_list.lookup c).sum,
         (chars.filterMap fun c => letter_values_list.lookup c).length) := by
  unfold nameTotals
  rw [coreStep_foldl]
  simp

/-- If `pyStrip s` is empty, every character of `s` is whitespace. -/
theorem pyStrip_nil_all_space {s : List Char} (h : pyStrip s = []) :
    ∀ c ∈ s, pyIsSpace c = true := by
  unfold pyStrip at h
  rw [List.reverse_eq_nil_iff, List.dropWhile_eq_nil_iff] at h
  have hdrop : ∀ c ∈ s.dropWhile pyIsSpace, pyIsSpace c = true := by
    intro c hc
    exact h c (List.mem_reverse.mpr hc)
  intro c hc
  rcases List.mem_append.mp
      (by rw [List.takeWhile_append_dropWhile] ; exact hc :
        c ∈ s.takeWhile pyIsSpace ++ s.dropWhile pyIsSpace) with h1 | h2
  · exact List.mem_takeWhile_imp h1
  · exact hdrop c h2

/-- A whitespace character never scores: the table lookup of its uppercased
form is `none`. -/
theorem lookup_upper_space {c : Char} (h : pyIsSpace c = true) :
    letter_values_list.lookup (Char.toUpper c) = none := by
  simp only [pyIsSpace, Bool.or_eq_true, beq_iff_eq] at h
  obtain ((((h | h) | h) | h) | h) | h := h <;> subst h <;> decide

/-- Characterization of success of `calculate_numerology_value`: it returns
`Except.ok v` exactly when some character maps under the table, and then `v` is
the reduction of the mapped values' sum. -/
theorem calculate_ok_iff (name : List Char) (v : Int) :
    calculate_numerology_value name = Except.ok v ↔
      ((name.map Char.toUpper).filterMap fun c => letter_values_list.lookup c) ≠ [] ∧
      reduce_to_final_number
        ((name.map Char.toUpper).filterMap fun c => letter_values_list.lookup c).sum = v := by
  unfold calculate_numerology_value
  rw [nameTotals_eq]
  by_cases h1 : pyStrip name = []
  · rw [if_pos h1]
    constructor
    · intro h; cases h
    · rintro ⟨hne, _⟩
      exfalso
      apply hne
      rw [List.filterMap_eq_nil_iff]
      intro a ha
      rcases List.mem_map.mp ha with ⟨c, hc, rfl⟩
      exact lookup_upper_space (pyStrip_nil_all_space h1 c hc)
  · rw [if_neg h1]
    by_cases h2 :
        ((name.map Char.toUpper).filterMap fun c => letter_values_list.lookup c).length = 0
    · rw [if_pos h2]
      constructor
      · intro h; cases h
      · rintro ⟨hne, _⟩
        exact absurd (List.length_eq_zero.mp h2) hne
    · rw [if_neg h2]
      constructor
      · intro h
        cases h
        exact ⟨fun hnil => h2 (by rw [hnil]; rfl), rfl⟩
      · rintro ⟨_, hv⟩
        rw [hv]

/-- Evaluation helper: compute `calculate_numerology_value` from concrete
totals and a concrete reduction. -/
theorem calculate_eval (name : List Char) (t : Int) (k : Nat) (r : Int)
    (h1 : pyStrip name ≠ [])
    (h2 : nameTotals (name.map Char.toUpper) = (t, k))
    (h3 : k ≠ 0)
    (h4 : reduce_to_final_number t = r) :
    calculate_numerology_value name = Except.ok r := by
  unfold calculate_numerology_value
  rw [if_neg h1, h2]
  simp only [h3, if_false]
  rw [h4]

/-- The numerology range, as the spec's set {1..9} ∪ {11, 22, 33}. -/
def numerologyRange : List Int := [1, 2, 3, 4, 5, 6, 7, 8, 9, 11, 22, 33]

theorem reduce_mem_of_pos_aux :
    ∀ (k : Nat) (n : Int), n.toNat ≤ k → 0 < n →
      reduce_to_final_number n ∈ numerologyRange := by
  intro k
  induction k with
  | zero => intro n h hpos; omega
  | succ k ih =>
    intro n h hpos
    by_cases h9 : 9 < n
    · by_cases hm : n = 11 ∨ n = 22 ∨ n = 33
      · rw [reduce_of_master n h9 hm]
        rcases hm with rfl | rfl | rfl <;> decide
      · rw [reduce_step n h9 hm]
        apply ih
        · have hlt : digitSum n.toNat < n.toNat := digitSum_lt _ (by omega)
          omega
        · have hp : 0 < digitSum n.toNat := digitSum_pos _ (by omega)
          omega
    · rw [reduce_of_le_nine n (by omega)]
      simp only [numerologyRange, List.mem_cons, List.not_mem_nil, or_false]
      omega

/-- A positive integer always reduces into {1..9} ∪ {11, 22, 33}. -/
theorem reduce_mem_of_pos (n : Int) (h : 0 < n) :
    reduce_to_final_number n ∈ numerologyRange :=
  reduce_mem_of_pos_aux n.toNat n (Nat.le_refl _) h

/-
--------------------------------------------------------------------------
Embedding of src/app.py (the Streamlit web application).
--------------------------------------------------------------------------
-/

/-- `app.get_letter_values` (src/app.py lines 221-233): the dictionary the web
application uses to render the step-by-step breakdown, in source order. -/
def get_letter_values_list : List (Char × Int) :=
  [('A', 1), ('J', 1), ('S', 3),
   ('B', 2), ('K', 2), ('T', 4),
   ('C', 3), ('L', 3), ('U', 6),
   ('D', 4), ('M', 4), ('V', 6),
   ('E', 5), ('N', 5), ('W', 6),
   ('F', 8), ('O', 7), ('X', 5),
   ('G', 3), ('P', 8), ('Y', 1),
   ('H', 5), ('Q', 1), ('Z', 7),
   ('I', 1), ('R', 2)]

/-- One iteration of the loop in `app.process_name_for_display`:
mapped letter, whitespace, unmapped alphabetic, or skipped character. -/
def displayStep (lv : List (Char × Int)) (acc : List String × Int × List Char)
    (c : Char) : List String × Int × List Char :=
  match lv.lookup c with
  | some v => (acc.1 ++ [String.mk [c] ++ " = " ++ toString v], acc.2.1 + v, acc.2.2)
  | none =>
    if pyIsSpace c then (acc.1, acc.2.1, acc.2.2 ++ [c])
    else if c.isAlpha then (acc.1 ++ [String.mk [c] ++ " = ?"], acc.2.1, acc.2.2)
    else acc

/-- `app.process_name_for_display` (src/app.py):
returns `(breakdown, total, ignored_chars)` for `name.upper()`. -/
def process_name_for_display (name : List Char) (lv : List (Char × Int)) :
    List String × Int × List Char :=
  (name.map Char.toUpper).foldl (displayStep lv) ([], 0, [])

/-- The `calculation_details` dict built by `app.show_calculation_steps`. -/
structure CalcDetails where
  breakdown : List String
  total : Int
  ignored_chars : List Char
  final_value : Int
deriving DecidableEq

/-- The summarized `calculation` object stored inside a history entry by
`app.save_to_history`. -/
structure CalcSummary where
  breakdown : String
  total : Int
  final_value : Int
  ignored_chars_count : Nat
deriving DecidableEq

/-- The summarization performed inside `app.save_to_history` when
`calculation_details` is provided. -/
def summarizeCalculation (d : CalcDetails) : CalcSummary :=
  { breakdown := if d.breakdown = [] then "" else " + ".intercalate d.breakdown
    total := d.total
    final_value := d.final_value
    ignored_chars_count := d.ignored_chars.length }

/-- One history entry as persisted in `calculation_history.json`.  The
`first_name` / `last_name` fields are `Option` because entries written by older
schema versions may lack those keys. -/
structure HistoryEntry where
  timestamp : List Char
  name : List Char
  first_name : Option (List Char)
  last_name : Option (List Char)
  numerology_value : Int
  meaning : List Char
  calculation : Option CalcSummary
deriving DecidableEq

/-- The state of the history backing file `calculation_history.json`:
`none` = the file does not exist; `some none` = the file exists but its content
fails to parse as JSON; `some (some l)` = the content parses to the entry
list `l`. -/
def FileState : Type := Option (Option (List HistoryEntry))

/-- `app.load_history` (src/app.py lines 344-358): missing file and JSON parse
failure both yield the empty list. -/
def load_history (file : FileState) : List HistoryEntry :=
  match file with
  | none => []
  | some none => []
  | some (some l) => l

/-- The per-entry comparison performed by the loop of
`app.is_name_in_history`, against the already lowered-and-stripped candidate. -/
def entryMatches (candidate : List Char) (e : HistoryEntry) : Bool :=
  pyStrip (e.name.map Char.toLower) == candidate ||
    (e.first_name.isSome && e.last_name.isSome &&
      pyStrip (((e.first_name.getD []) ++ [' '] ++ (e.last_name.getD [])).map Char.toLower)
        == candidate)

/-- `app.is_name_in_history` (src/app.py lines 483-508). -/
def is_name_in_history (name : List Char) (file : FileState) : Bool :=
  (load_history file).any (entryMatches (pyStrip (name.map Char.toLower)))

/-- `app.parse_name_components` (src/app.py lines 607-624):
`full_name.strip().split(' ', 1)`, i.e. the trimmed name is split at the first
occurrence of the single space character, at most once. -/
def parse_name_components (full_name : List Char) : List Char × List Char :=
  if ' ' ∈ pyStrip full_name then
    ((pyStrip full_name).takeWhile (fun c => c != ' '),
     ((pyStrip full_name).dropWhile (fun c => c != ' ')).tail)
  else (pyStrip full_name, [])

/-- `app.save_to_history` (src/app.py lines 273-341).  The ambient Streamlit
session state (`first_name`, `last_name`) and the wall-clock timestamp are
passed as explicit arguments; the function returns the Python return value
together with the new state of the backing file. -/
def save_to_history (name : List Char) (numerology_value : Int) (meaning : List Char)
    (calculation_details : Option CalcDetails)
    (session_first session_last timestamp : List Char)
    (file : FileState) : Bool × FileState :=
  if is_name_in_history name file then (false, file)
  else
    (true, some (some (load_history file ++
      [{ timestamp := timestamp
         name := name
         first_name := some (if session_first = [] ∧ session_last = [] ∧ name ≠ [] then
             (parse_name_components name).1 else session_first)
         last_name := some (if session_first = [] ∧ session_last = [] ∧ name ≠ [] then
             (parse_name_components name).2 else session_last)
         numerology_value := numerology_value
         meaning := meaning
         calculation := calculation_details.map summarizeCalculation }])))

/-
--------------------------------------------------------------------------
Embedding of src/cli_demo.py (the terminal demo).
--------------------------------------------------------------------------
-/

/-- The `letter_values` dictionary literal inside
`cli_demo.show_calculation_breakdown` (src/cli_demo.py lines 58-82),
in source order. -/
def cli_letter_values_list : List (Char × Int) :=
  [('A', 1), ('J', 1), ('S', 3),
   ('B', 2), ('K', 2), ('T', 4),
   ('C', 3), ('L', 3), ('U', 6),
   ('D', 4), ('M', 4), ('V', 6),
   ('E', 5), ('N', 5), ('W', 6),
   ('F', 8), ('O', 7), ('X', 5),
   ('G', 3), ('P', 8), ('Y', 1),
   ('H', 5), ('Q', 1), ('Z', 7),
   ('I', 1), ('R', 2)]

/-- One iteration of the loop in `cli_demo.show_calculation_breakdown`. -/
def cliStep (acc : List String × Int) (c : Char) : List String × Int :=
  match cli_letter_values_list.lookup c with
  | some v => (acc.1 ++ [String.mk [c] ++ "=" ++ toString v], acc.2 + v)
  | none => acc

/-- The `(breakdown, total)` pair computed by
`cli_demo.show_calculation_breakdown` before printing. -/
def show_calculation_breakdown_data (name : List Char) : List String × Int :=
  (name.map Char.toUpper).foldl cliStep ([], 0)

/-
--------------------------------------------------------------------------
Definitions modelled from the spec's words, for comparison with the code.
--------------------------------------------------------------------------
-/

/-- Modelled from the spec: the canonical Pythagorean table the spec (§3) and
the docstring of `calculate_numerology_value` assert
(A,J,S=1; B,K,T=2; C,L,U=3; D,M,V=4; E,N,W=5; F,O,X=6; G,P,Y=7; H,Q,Z=8;
I,R=9). -/
def spec_letter_values_list : List (Char × Int) :=
  [('A', 1), ('J', 1), ('S', 1),
   ('B', 2), ('K', 2), ('T', 2),
   ('C', 3), ('L', 3), ('U', 3),
   ('D', 4), ('M', 4), ('V', 4),
   ('E', 5), ('N', 5), ('W', 5),
   ('F', 6), ('O', 6), ('X', 6),
   ('G', 7), ('P', 7), ('Y', 7),
   ('H', 8), ('Q', 8), ('Z', 8),
   ('I', 9), ('R', 9)]

/-- Modelled from the spec: `DeriveNameParts(fullName)` "splits on the first
whitespace run; if no whitespace exists, first = whole string, last = empty
string", applied to the trimmed name as the claim states. -/
def specDeriveNameParts (full_name : List Char) : List Char × List Char :=
  if (pyStrip full_name).any pyIsSpace then
    ((pyStrip full_name).takeWhile (fun c => !(pyIsSpace c)),
     ((pyStrip full_name).dropWhile (fun c => !(pyIsSpace c))).dropWhile pyIsSpace)
  else (pyStrip full_name, [])

/-- A sample persisted history file with one entry, used to exercise the
history operations on concrete data. -/
def sampleEntry : HistoryEntry :=
  { timestamp := "2024-01-01 00:00:00".toList
    name := "Bob".toList
    first_name := some "Bob".toList
    last_name := some []
    numerology_value := 7
    meaning := "Spirituality, introspection, analysis".toList
    calculation := none }

/-- A backing file that exists and parses to `[sampleEntry]`. -/
def sampleFile : FileState := some (some [sampleEntry])

/-
--------------------------------------------------------------------------
General lemmas about the embedded functions.
--------------------------------------------------------------------------
-/

theorem displayStep_foldl (lv : List (Char × Int)) (chars : List Char) :
    ∀ acc : List String × Int × List Char,
      (chars.foldl (displayStep lv) acc).2.1
        = acc.2.1 + (chars.filterMap fun c => lv.lookup c).sum := by
  induction chars with
  | nil => intro acc; simp
  | cons c cs ih =>
    intro acc
    rw [List.foldl_cons, List.filterMap_cons, ih]
    cases h : lv.lookup c with
    | none =>
      simp only [displayStep, h]
      by_cases hs : pyIsSpace c
      · simp [hs]
      · by_cases ha : c.isAlpha <;> simp [hs, ha]
    | some v =>
      simp only [displayStep, h, List.sum_cons]
      ring

theorem cliStep_foldl (chars : List Char) :
    ∀ acc : List String × Int,
      (chars.foldl cliStep acc).2
        = acc.2 + (chars.filterMap fun c => cli_letter_values_list.lookup c).sum := by
  induction chars with
  | nil => intro acc; simp
  | cons c cs ih =>
    intro acc
    rw [List.foldl_cons, List.filterMap_cons, ih]
    cases h : cli_letter_values_list.lookup c with
    | none => simp only [cliStep, h]
    | some v =>
      simp only [cliStep, h, List.sum_cons]
      ring

theorem filterMap_filter_isSome (f : Char → Option Int) (l : List Char) :
    (l.filter fun c => (f c).isSome).filterMap f = l.filterMap f := by
  induction l with
  | nil => rfl
  | cons c cs ih =>
    cases h : f c with
    | none => simp [List.filter_cons, List.filterMap_cons, h, ih]
    | some v => simp [List.filter_cons, List.filterMap_cons, h, ih]

theorem filterMap_congr_of_filter_eq (f : Char → Option Int) (l1 l2 : List Char)
    (h : l1.filter (fun c => (f c).isSome) = l2.filter (fun c => (f c).isSome)) :
    l1.filterMap f = l2.filterMap f := by
  rw [← filterMap_filter_isSome f l1, h, filterMap_filter_isSome]

theorem takeWhile_before_space (a b : List Char) (ha : ' ' ∉ a) :
    ((a ++ ' ' :: b).takeWhile fun c => c != ' ') = a := by
  induction a with
  | nil => simp [List.takeWhile_cons]
  | cons x xs ih =>
    have hx : (x != ' ') = true := by
      simp only [bne_iff_ne, ne_eq]
      intro hxe
      exact ha (hxe ▸ List.mem_cons_self x xs)
    simp only [List.cons_append, List.takeWhile_cons, hx, if_true]
    rw [ih fun hmem => ha (List.mem_cons_of_mem x hmem)]

theorem dropWhile_before_space (a b : List Char) (ha : ' ' ∉ a) :
    ((a ++ ' ' :: b).dropWhile fun c => c != ' ') = ' ' :: b := by
  induction a with
  | nil => simp [List.dropWhile_cons]
  | cons x xs ih =>
    have hx : (x != ' ') = true := by
      simp only [bne_iff_ne, ne_eq]
      intro hxe
      exact ha (hxe ▸ List.mem_cons_self x xs)
    simp only [List.cons_append, List.dropWhile_cons, hx, if_true]
    exact ih fun hmem => ha (List.mem_cons_of_mem x hmem)

/-- Shared concrete evaluation: the numerology value of "JOHN" is 9. -/
theorem calculate_JOHN : calculate_numerology_value "JOHN".toList = Except.ok 9 :=
  calculate_eval "JOHN".toList 18 4 9 (by decide) (by decide) (by decide) reduce_eval_18

/-
--------------------------------------------------------------------------
Claim theorems.
--------------------------------------------------------------------------
-/

/-- C1: the claim says the scoring table of `calculate_numerology_value` is
the canonical Pythagorean table.  The code contradicts its own docstring: the
embedded table maps S to 3 (canonical: 1), I to 1 and R to 2 (canonical: 9),
no letter at all maps to 9, and `calculate_numerology_value("S")` returns 3
where the documented table yields 1. -/
theorem claim_C1_code_divergence :
    letter_values_list.lookup 'S' = some 3 ∧
    spec_letter_values_list.lookup 'S' = some 1 ∧
    calculate_numerology_value "S".toList = Except.ok 3 ∧
    letter_values_list.lookup 'I' = some 1 ∧
    letter_values_list.lookup 'R' = some 2 ∧
    (letter_values_list.all fun p => p.2 ≠ 9) = true := by
  refine ⟨by decide, by decide, ?_, by decide, by decide, by decide⟩
  exact calculate_eval "S".toList 3 1 3 (by decide) (by decide) (by decide)
    (reduce_of_le_nine 3 (by norm_num))

/-- C2 counterexample: the claim says the display tables of the web app and
the terminal demo differ from the core's scoring table for some letter.  In
fact all three dictionary literals are identical, so every letter gets the
same value in all of them. -/
theorem claim_C2_counterexample :
    get_letter_values_list = letter_values_list ∧
    cli_letter_values_list = letter_values_list ∧
    (("ABCDEFGHIJKLMNOPQRSTUVWXYZ".toList).all fun c =>
      (get_letter_values_list.lookup c == letter_values_list.lookup c) &&
      (cli_letter_values_list.lookup c == letter_values_list.lookup c)) = true :=
  ⟨by decide, by decide, by decide⟩

/-- C2 amended: the display tables embedded in `app.get_letter_values` and in
`cli_demo.show_calculation_breakdown` are identical to the core's scoring
table, and for every name the total shown by either breakdown helper equals
exactly the total `calculate_numerology_value` summed. -/
theorem claim_C2_amended (name : List Char) :
    get_letter_values_list = letter_values_list ∧
    cli_letter_values_list = letter_values_list ∧
    (process_name_for_display name get_letter_values_list).2.1
      = (nameTotals (name.map Char.toUpper)).1 ∧
    (show_calculation_breakdown_data name).2
      = (nameTotals (name.map Char.toUpper)).1 := by
  have htab : get_letter_values_list = letter_values_list := by decide
  have htab2 : cli_letter_values_list = letter_values_list := by decide
  refine ⟨htab, htab2, ?_, ?_⟩
  · unfold process_name_for_display
    rw [displayStep_foldl, nameTotals_eq, htab]
    simp
  · unfold show_calculation_breakdown_data
    rw [cliStep_foldl, nameTotals_eq, htab2]
    simp

/-- C3: `calculate_numerology_value("JOHN")` sums 1+7+5+5 = 18, reduces to 9,
the meaning of 9 contains "Humanitarian", and "MARY JANE" computes the same
value as "MARYJANE". -/
theorem claim_C3_john_and_maryjane :
    calculate_numerology_value "JOHN".toList = Except.ok 9 ∧
    (nameTotals ("JOHN".toList.map Char.toUpper)).1 = 18 ∧
    reduce_to_final_number 18 = 9 ∧
    (∃ pre post : List Char,
      (get_numerology_meaning 9).toList = pre ++ "Humanitarian".toList ++ post) ∧
    calculate_numerology_value "MARY JANE".toList
      = calculate_numerology_value "MARYJANE".toList :=
  ⟨calculate_JOHN, by decide, reduce_eval_18,
   ⟨[], ", generous, completion".toList, by decide⟩, rfl⟩

/-- C4: whenever `calculate_numerology_value` succeeds, the returned value
lies in {1..9} ∪ {11, 22, 33}. -/
theorem claim_C4_range (name : List Char) (v : Int)
    (h : calculate_numerology_value name = Except.ok v) : v ∈ numerologyRange := by
  rw [calculate_ok_iff] at h
  obtain ⟨hne, hv⟩ := h
  subst hv
  apply reduce_mem_of_pos
  apply List.sum_pos
  · intro x hx
    rcases List.mem_filterMap.mp hx with ⟨c, _, hc⟩
    have := letter_values_ge_one hc
    omega
  · exact hne

theorem claim_C4_witness :
    calculate_numerology_value "JOHN".toList = Except.ok 9 ∧
    (9 : Int) ∈ numerologyRange :=
  ⟨calculate_JOHN, claim_C4_range "JOHN".toList 9 calculate_JOHN⟩

/-- C5: `reduce_to_final_number` returns every number ≤ 9 unchanged, returns
the master numbers 11, 22, 33 unchanged, otherwise replaces a number > 9 by
its base-10 digit sum and recurses; Reduce(5)=5, Reduce(15)=6, Reduce(29)=11. -/
theorem claim_C5_reduce_behaviour :
    (∀ n : Int, n ≤ 9 → reduce_to_final_number n = n) ∧
    (reduce_to_final_number 11 = 11 ∧ reduce_to_final_number 22 = 22 ∧
      reduce_to_final_number 33 = 33) ∧
    (∀ n : Int, 9 < n → ¬(n = 11 ∨ n = 22 ∨ n = 33) →
      reduce_to_final_number n = reduce_to_final_number (digitSum n.toNat)) ∧
    (reduce_to_final_number 5 = 5 ∧ reduce_to_final_number 15 = 6 ∧
      reduce_to_final_number 29 = 11) :=
  ⟨reduce_of_le_nine,
   ⟨reduce_of_master 11 (by norm_num) (Or.inl rfl),
    reduce_of_master 22 (by norm_num) (Or.inr (Or.inl rfl)),
    reduce_of_master 33 (by norm_num) (Or.inr (Or.inr rfl))⟩,
   reduce_step,
   ⟨reduce_of_le_nine 5 (by norm_num), reduce_eval_15, reduce_eval_29⟩⟩

theorem claim_C5_witness :
    reduce_to_final_number 7 = 7 ∧
    reduce_to_final_number 47 = reduce_to_final_number (digitSum (Int.toNat 47)) :=
  ⟨claim_C5_reduce_behaviour.1 7 (by norm_num),
   claim_C5_reduce_behaviour.2.2.1 47 (by norm_num) (by norm_num)⟩

/-- C6: two names whose uppercased sequences of mapped letters coincide (so
names differing only in case or in unmapped characters such as whitespace,
digits or punctuation) produce the same result from
`calculate_numerology_value`. -/
theorem claim_C6_mapped_letters (s1 s2 : List Char)
    (h : (s1.map Char.toUpper).filter (fun c => (letter_values_list.lookup c).isSome)
       = (s2.map Char.toUpper).filter fun c => (letter_values_list.lookup c).isSome) :
    ∀ v : Int, calculate_numerology_value s1 = Except.ok v ↔
      calculate_numerology_value s2 = Except.ok v := by
  intro v
  rw [calculate_ok_iff, calculate_ok_iff]
  have hfm : (s1.map Char.toUpper).filterMap (fun c => letter_values_list.lookup c)
      = (s2.map Char.toUpper).filterMap fun c => letter_values_list.lookup c :=
    filterMap_congr_of_filter_eq _ _ _ h
  rw [hfm]

theorem claim_C6_witness :
    ("J O H N".toList.map Char.toUpper).filter
        (fun c => (letter_values_list.lookup c).isSome)
      = ("john".toList.map Char.toUpper).filter
        (fun c => (letter_values_list.lookup c).isSome) ∧
    (calculate_numerology_value "J O H N".toList = Except.ok 9 ↔
      calculate_numerology_value "john".toList = Except.ok 9) :=
  ⟨by decide, claim_C6_mapped_letters "J O H N".toList "john".toList (by decide) 9⟩

/-- C7: saving a name not yet in history succeeds and appends exactly one
entry carrying that name, value and meaning after the unchanged previous
entries; saving a duplicate name is refused and leaves the backing file
untouched. -/
theorem claim_C7_save_history (name : List Char) (v : Int) (meaning : List Char)
    (details : Option CalcDetails) (sf sl ts : List Char) (file : FileState) :
    (is_name_in_history name file = false →
      (save_to_history name v meaning details sf sl ts file).1 = true ∧
      ∃ e : HistoryEntry,
        load_history (save_to_history name v meaning details sf sl ts file).2
          = load_history file ++ [e] ∧
        e.name = name ∧ e.numerology_value = v ∧ e.meaning = meaning) ∧
    (is_name_in_history name file = true →
      (save_to_history name v meaning details sf sl ts file).1 = false ∧
      (save_to_history name v meaning details sf sl ts file).2 = file) := by
  constructor
  · intro h
    unfold save_to_history
    rw [if_neg (by simp [h])]
    exact ⟨rfl, ⟨_, rfl, rfl, rfl, rfl⟩⟩
  · intro h
    unfold save_to_history
    rw [if_pos (by simp [h])]
    exact ⟨rfl, rfl⟩

theorem claim_C7_witness :
    ((save_to_history "ANA".toList 7 "m".toList none [] [] [] sampleFile).1 = true ∧
      ∃ e : HistoryEntry,
        load_history (save_to_history "ANA".toList 7 "m".toList none [] [] [] sampleFile).2
          = load_history sampleFile ++ [e] ∧
        e.name = "ANA".toList ∧ e.numerology_value = 7 ∧ e.meaning = "m".toList) ∧
    ((save_to_history " bob ".toList 7 "m".toList none [] [] [] sampleFile).1 = false ∧
      (save_to_history " bob ".toList 7 "m".toList none [] [] [] sampleFile).2 = sampleFile) :=
  ⟨(claim_C7_save_history "ANA".toList 7 "m".toList none [] [] [] sampleFile).1 (by decide),
   (claim_C7_save_history " bob ".toList 7 "m".toList none [] [] [] sampleFile).2 (by decide)⟩

/-- C8: `load_history` yields the empty sequence both for a missing backing
file and for one whose content fails to parse as JSON (it is a total function
of the file state, so neither case raises). -/
theorem claim_C8_load_fallback :
    load_history none = [] ∧ load_history (some none) = [] :=
  ⟨rfl, rfl⟩

/-- C9 counterexample: the claim says `parse_name_components` splits on the
first whitespace run.  It splits only on the single space character: on
"John\tDoe" (a tab, no space) the code keeps the whole string as the first
component, while the spec's split would give ("John", "Doe"). -/
theorem claim_C9_counterexample :
    parse_name_components "John\tDoe".toList = ("John\tDoe".toList, []) ∧
    specDeriveNameParts "John\tDoe".toList = ("John".toList, "Doe".toList) ∧
    parse_name_components "John\tDoe".toList ≠ specDeriveNameParts "John\tDoe".toList :=
  ⟨by decide, by decide, by decide⟩

/-- C9 amended: `parse_name_components` trims the name and splits at the first
occurrence of the single space character only, at most once: with no space in
the trimmed name the first component is the whole trimmed name and the last is
empty; otherwise the first component is the text before the first space and
the last is everything after that one space character (keeping any further
spaces), tabs and other whitespace not being split points. -/
theorem claim_C9_amended (s a b : List Char) :
    (' ' ∉ pyStrip s → parse_name_components s = (pyStrip s, [])) ∧
    (pyStrip s = a ++ ' ' :: b → ' ' ∉ a → parse_name_components s = (a, b)) := by
  constructor
  · intro h
    unfold parse_name_components
    rw [if_neg h]
  · intro hs ha
    unfold parse_name_components
    rw [hs, if_pos (by simp : ' ' ∈ a ++ ' ' :: b)]
    rw [takeWhile_before_space a b ha, dropWhile_before_space a b ha]
    rfl

theorem claim_C9_witness :
    parse_name_components "John  Doe".toList = ("John".toList, " Doe".toList) ∧
    parse_name_components "Mononym".toList = ("Mononym".toList, []) :=
  ⟨(claim_C9_amended "John  Doe".toList "John".toList " Doe".toList).2
      (by decide) (by decide),
   (claim_C9_amended "Mononym".toList [] []).1 (by decide)⟩

/-- C10: `reduce_to_final_number` returns every integer ≤ 9 unchanged,
including 0 and negative integers; on such non-positive inputs the result
lies outside {1..9} ∪ {11, 22, 33}, while every positive input reduces into
that range — so the spec's range invariant holds exactly for positive
inputs. -/
theorem claim_C10_reduce_nonpositive :
    (∀ n : Int, n ≤ 9 → reduce_to_final_number n = n) ∧
    (∀ n : Int, n ≤ 0 → reduce_to_final_number n ∉ numerologyRange) ∧
    (∀ n : Int, 0 < n → reduce_to_final_number n ∈ numerologyRange) := by
  refine ⟨reduce_of_le_nine, ?_, reduce_mem_of_pos⟩
  intro n hn
  rw [reduce_of_le_nine n (by omega)]
  simp only [numerologyRange, List.mem_cons, List.not_mem_nil, or_false]
  omega

theorem claim_C10_witness :
    reduce_to_final_number 0 = 0 ∧
    reduce_to_final_number (-5) ∉ numerologyRange ∧
    reduce_to_final_number 4 ∈ numerologyRange :=
  ⟨claim_C10_reduce_nonpositive.1 0 (by norm_num),
   claim_C10_reduce_nonpositive.2.1 (-5) (by norm_num),
   claim_C10_reduce_nonpositive.2.2 4 (by norm_num)⟩
